import Mathlib

set_option linter.unusedVariables false

/-!
Verification development for the `nfs_mounter_agent` daemon.

The Go sources (internal watchdog, health handlers, main) are shallowly
embedded below: Go strings are Lean `String`s, Go maps are association
lists with Go map semantics (replace-on-existing-key, append-on-new-key),
filesystem and /proc/mounts interactions are explicit environment records,
and Prometheus metric vectors are association lists from label tuples to
values.  Fallible Go code returns `Except`.
-/

namespace NfsMounterAgent

/-- Embedding of Go `strings.HasPrefix` (true when `p` is a prefix of `s`). -/
def goHasPre (s p : String) : Bool :=
  p.data.isPrefixOf s.data

/-- Dropping the first `n` characters of a string (used to model Go slicing
`s[len(p):]` inside `strings.TrimPrefix`). -/
def goDrop (s : String) (n : Nat) : String :=
  String.mk (s.data.drop n)

/-- Embedding of Go `strings.TrimPrefix`: removes exactly one occurrence of
the prefix `p` from `s` when present, otherwise returns `s` unchanged. -/
def goTrimPre (s p : String) : String :=
  if goHasPre s p then goDrop s p.length else s

/-- Helper for `goFields`: walks the character list accumulating the current
field (in reverse) and emitting fields at whitespace boundaries. -/
def goFieldsAux : List Char → List Char → List String
  | [], [] => []
  | [], acc => [String.mk acc.reverse]
  | c :: cs, acc =>
    if c.isWhitespace then
      match acc with
      | [] => goFieldsAux cs []
      | _ => String.mk acc.reverse :: goFieldsAux cs []
    else goFieldsAux cs (c :: acc)

/-- Embedding of Go `strings.Fields`: splits around runs of whitespace,
never producing empty fields. -/
def goFields (s : String) : List String :=
  goFieldsAux s.data []

/-- Lookup in an association list with Go map read semantics
(`v, ok := m[k]` is `alGet m k`: `some v` when present, `none` otherwise). -/
def alGet {α β : Type} [DecidableEq α] : List (α × β) → α → Option β
  | [], _ => none
  | (k', v) :: rest, k => if k' = k then some v else alGet rest k

/-- Write to an association list with Go map write semantics
(`m[k] = v`): replaces the value when the key is present, otherwise adds
the key. -/
def alSet {α β : Type} [DecidableEq α] : List (α × β) → α → β → List (α × β)
  | [], k, v => [(k, v)]
  | (k', v') :: rest, k, v =>
    if k' = k then (k', v) :: rest else (k', v') :: alSet rest k v

/-- The keys of an association list, in insertion order. -/
def alKeys {α β : Type} (m : List (α × β)) : List α :=
  m.map Prod.fst

theorem alGet_alSet_self {α β : Type} [DecidableEq α]
    (m : List (α × β)) (k : α) (v : β) :
    alGet (alSet m k v) k = some v := by
  induction m with
  | nil => simp [alGet, alSet]
  | cons hd tl ih =>
    obtain ⟨k', v'⟩ := hd
    by_cases h : k' = k
    · simp [alGet, alSet, h]
    · simp [alGet, alSet, h, ih]

theorem alGet_alSet_of_ne {α β : Type} [DecidableEq α]
    (m : List (α × β)) (k k' : α) (v : β) (h : k' ≠ k) :
    alGet (alSet m k v) k' = alGet m k' := by
  induction m with
  | nil => simp [alGet, alSet, Ne.symm h]
  | cons hd tl ih =>
    obtain ⟨k'', v''⟩ := hd
    by_cases hk : k'' = k
    · subst hk
      simp [alGet, alSet, Ne.symm h]
    · by_cases hk' : k'' = k'
      · simp [alGet, alSet, hk, hk', h]
      · simp [alGet, alSet, hk, hk', ih]

theorem mem_alKeys_alSet {α β : Type} [DecidableEq α]
    (m : List (α × β)) (k x : α) (v : β) :
    x ∈ alKeys (alSet m k v) ↔ x ∈ alKeys m ∨ x = k := by
  induction m with
  | nil => simp [alKeys, alSet]
  | cons hd tl ih =>
    obtain ⟨k', v'⟩ := hd
    by_cases h : k' = k
    · subst h
      simp [alKeys, alSet]
      tauto
    · have hset : alSet ((k', v') :: tl) k v = (k', v') :: alSet tl k v := by
        simp [alSet, h]
      rw [hset]
      simp only [alKeys, List.map_cons, List.mem_cons]
      have ih' := ih
      simp only [alKeys] at ih'
      rw [ih']
      tauto

theorem alKeys_alSet_of_mem {α β : Type} [DecidableEq α]
    (m : List (α × β)) (k : α) (v : β) :
    k ∈ alKeys m → alKeys (alSet m k v) = alKeys m := by
  induction m with
  | nil => intro h; simp [alKeys] at h
  | cons hd tl ih =>
    obtain ⟨k', v'⟩ := hd
    intro h
    by_cases hk : k' = k
    · simp [alKeys, alSet, hk]
    · have hmem : k ∈ alKeys tl := by
        simp only [alKeys, List.map_cons, List.mem_cons] at h
        rcases h with h | h
        · exact absurd h.symm hk
        · simpa only [alKeys] using h
      have hrec := ih hmem
      simp only [alSet, if_neg hk, alKeys, List.map_cons] at hrec ⊢
      rw [hrec]

deriving instance DecidableEq for Except

/-- Result of `os.Stat` as the watchdog consumes it: only directory-ness is
inspected. -/
structure StatInfo where
  isDir : Bool
deriving DecidableEq

/-- Environment for one read of `/proc/mounts`: either opening fails, or a
list of successfully scanned lines is produced; `scanErr` is a scanner
error reported after the last successfully scanned line. -/
structure MountsEnv where
  openRes : Except String (List String)
  scanErr : Option String
deriving DecidableEq

/-- Environment for one write test: the wall-clock duration the timer
observes, and the outcomes of `os.WriteFile` and `os.Remove`. -/
structure WriteEnv where
  duration : Nat
  createRes : Except String Unit
  removeRes : Except String Unit
deriving DecidableEq

/-- Environment for one `checkMounted` invocation. -/
structure CheckEnv where
  statRes : Except String StatInfo
  mounts : MountsEnv
  write : WriteEnv
deriving DecidableEq

/-- The error kinds `Watchdog.checkMounted` can produce, one constructor per
`fmt.Errorf` format in the source. -/
inductive CheckErr where
  | statFailed (mountPoint msg : String)
  | notADirectory (mountPoint : String)
  | procMountsCheckFailed (msg : String)
  | notAnNFSMount (mountPoint : String)
  | writeTestFailed (mountPoint msg : String)
deriving DecidableEq

/-- The I/O steps of the check algorithm, used to record which of the three
steps an invocation actually performed. -/
inductive Step where
  | statStep
  | readMountsStep
  | writeStep
deriving DecidableEq

/-- One line of `/proc/mounts` matches when it has at least three fields,
its second field equals the mount point byte-for-byte, and its third field
is exactly `nfs` or has the prefix `nfs4`. -/
def isNFSLine (mountPoint line : String) : Bool :=
  let fields := goFields line
  if fields.length < 3 then false
  else
    let mp := fields.getD 1 ""
    let fsType := fields.getD 2 ""
    mp == mountPoint && (fsType == "nfs" || goHasPre fsType "nfs4")

/-- Embedding of `Watchdog.isOnNFS`: scans `/proc/mounts`, returning
`ok true` on the first matching line; with no match it returns the scanner
error when one occurred, otherwise the error
`mount-point not found in /proc/mounts`.  Note it never returns
`ok false`. -/
def isOnNFS (env : MountsEnv) (mountPoint : String) : Except String Bool :=
  match env.openRes with
  | .error e => .error e
  | .ok lines =>
    if lines.any (isNFSLine mountPoint) then .ok true
    else
      match env.scanErr with
      | some e => .error e
      | none => .error "mount-point not found in /proc/mounts"

/-- Embedding of `Watchdog.writeTest`: the Prometheus timer is started
before the file operations and observed by `defer`, so exactly one
duration sample lands in the (optional) histogram no matter which branch
returns.  The histogram is an association list from the mountpoint label
to its recorded samples. -/
def writeTest (hist : Option (List (String × List Nat))) (env : WriteEnv)
    (mountPoint : String) :
    Except String Unit × Option (List (String × List Nat)) :=
  let hist' := hist.map fun h =>
    alSet h mountPoint ((alGet h mountPoint).getD [] ++ [env.duration])
  match env.createRes with
  | .error e => (.error e, hist')
  | .ok _ =>
    match env.removeRes with
    | .error e => (.error e, hist')
    | .ok _ => (.ok (), hist')

/-- Embedding of `Watchdog.checkMounted`: stat, then `/proc/mounts`, then
the optional write test, in order, short-circuiting on the first failure.
Returns the result, the histogram after the call, and the list of steps
performed. -/
def checkMounted (enableWriteTest : Bool)
    (hist : Option (List (String × List Nat))) (env : CheckEnv)
    (mountPoint : String) :
    Except CheckErr Unit × Option (List (String × List Nat)) × List Step :=
  match env.statRes with
  | .error e => (.error (.statFailed mountPoint e), hist, [.statStep])
  | .ok info =>
    if info.isDir = false then
      (.error (.notADirectory mountPoint), hist, [.statStep])
    else
      match isOnNFS env.mounts mountPoint with
      | .error e =>
        (.error (.procMountsCheckFailed e), hist, [.statStep, .readMountsStep])
      | .ok isNFS =>
        if isNFS = false then
          (.error (.notAnNFSMount mountPoint), hist, [.statStep, .readMountsStep])
        else if enableWriteTest then
          match writeTest hist env.write mountPoint with
          | (.error e, hist') =>
            (.error (.writeTestFailed mountPoint e), hist',
              [.statStep, .readMountsStep, .writeStep])
          | (.ok _, hist') =>
            (.ok (), hist', [.statStep, .readMountsStep, .writeStep])
        else (.ok (), hist, [.statStep, .readMountsStep])

/-- The `Watchdog` struct together with the Prometheus series its metric
vectors hold.  Metric vectors are association lists from label values to
the series value; `nfsWriteTestDuration` is `none` exactly when the
histogram was never created. -/
structure AgentState where
  mountPoints : List String
  checkInterval : Nat
  enableWriteTest : Bool
  lastHealthy : List (String × Bool)
  buildInfo : List ((String × String) × Nat)
  nfsMountHealthy : List (String × Nat)
  nfsChecksTotal : List ((String × String) × Nat)
  nfsRemountsTotal : List ((String × String) × Nat)
  nfsWriteTestDuration : Option (List (String × List Nat))
deriving DecidableEq

/-- Embedding of `NewWatchdog`: creates the metric vectors (the write-test
histogram only when enabled), sets the build-info gauge, and initializes
`lastHealthy` to `false` for every configured mount point. -/
def NewWatchdog (programName programVersion namespc : String)
    (points : List String) (interval : Nat) (enableWriteTest : Bool) :
    AgentState :=
  { mountPoints := points
    checkInterval := interval
    enableWriteTest := enableWriteTest
    lastHealthy := points.foldl (fun m mp => alSet m mp false) []
    buildInfo := [((programName, programVersion), 1)]
    nfsMountHealthy := []
    nfsChecksTotal := []
    nfsRemountsTotal := []
    nfsWriteTestDuration := if enableWriteTest then some [] else none }

/-- Embedding of `Watchdog.setHealthy`. -/
def setHealthy (w : AgentState) (mountPoint : String) (healthy : Bool) :
    AgentState :=
  { w with lastHealthy := alSet w.lastHealthy mountPoint healthy }

/-- Embedding of `Watchdog.IsHealthy`: false as soon as one configured
mount point maps to false (a missing key reads as Go's zero value
`false`). -/
def IsHealthy (w : AgentState) : Bool :=
  w.mountPoints.all fun mp => (alGet w.lastHealthy mp).getD false

/-- Embedding of `Watchdog.IsMountHealthy`, returning `(healthy, ok)`. -/
def IsMountHealthy (w : AgentState) (mountPoint : String) : Bool × Bool :=
  match alGet w.lastHealthy mountPoint with
  | some h => (h, true)
  | none => (false, false)

/-- Counter increment for a `CounterVec` labelled series
(`WithLabelValues(...).Inc()`): a missing series starts at zero. -/
def counterInc (c : List ((String × String) × Nat)) (label : String × String) :
    List ((String × String) × Nat) :=
  alSet c label ((alGet c label).getD 0 + 1)

/-- Current value of a labelled counter series, zero when the series does
not exist. -/
def counterVal (c : List ((String × String) × Nat)) (label : String × String) :
    Nat :=
  (alGet c label).getD 0

/-- Gauge set for a `GaugeVec` labelled series. -/
def gaugeSet (g : List (String × Nat)) (label : String) (v : Nat) :
    List (String × Nat) :=
  alSet g label v

/-- Number of samples a histogram holds for one mountpoint label. -/
def histCount (h : List (String × List Nat)) (mountPoint : String) : Nat :=
  ((alGet h mountPoint).getD []).length

/-- Number of samples of an optional histogram (zero when absent). -/
def histCountO (h : Option (List (String × List Nat))) (mountPoint : String) :
    Nat :=
  (h.map (histCount · mountPoint)).getD 0

/-- Embedding of `Watchdog.CheckMountPoint`: runs `checkMounted` and, per
its outcome, increments the checks counter, sets the health gauge and
stores the new health value. -/
def CheckMountPoint (w : AgentState) (env : CheckEnv) (mountPoint : String) :
    AgentState :=
  match checkMounted w.enableWriteTest w.nfsWriteTestDuration env mountPoint with
  | (.error _, hist, _) =>
    setHealthy
      { w with
        nfsChecksTotal := counterInc w.nfsChecksTotal (mountPoint, "error")
        nfsMountHealthy := gaugeSet w.nfsMountHealthy mountPoint 0
        nfsWriteTestDuration := hist }
      mountPoint false
  | (.ok _, hist, _) =>
    setHealthy
      { w with
        nfsChecksTotal := counterInc w.nfsChecksTotal (mountPoint, "ok")
        nfsMountHealthy := gaugeSet w.nfsMountHealthy mountPoint 1
        nfsWriteTestDuration := hist }
      mountPoint true

/-- Embedding of `Watchdog.CheckAll`: one pass checking every configured
mount point in configured order; `envs` supplies the filesystem
environment each individual check observes. -/
def CheckAll (w : AgentState) (envs : String → CheckEnv) : AgentState :=
  w.mountPoints.foldl (fun acc mp => CheckMountPoint acc (envs mp) mp) w

/-- An HTTP response as the handlers produce it: status code and body. -/
structure HTTPResponse where
  status : Nat
  body : String
deriving DecidableEq

/-- The `HealthHandlers` struct (the watchdog is passed separately to each
handler call). -/
structure HealthHandlers where
  healthPath : String
  mountPointsSubpath : String
deriving DecidableEq

/-- Embedding of `NewHealthHandler`. -/
def NewHealthHandler (healthPath mountPointsSubpath : String) :
    HealthHandlers :=
  { healthPath := healthPath, mountPointsSubpath := mountPointsSubpath }

/-- The mount-point decoding step of `HandleMountPoints`:
`mp := "/" + strings.TrimPrefix(raw, "/")`. -/
def decodeMountPoint (raw : String) : String :=
  "/" ++ goTrimPre raw "/"

/-- Embedding of `HealthHandlers.HandleMountPoints`.  The Go early returns
become an if/else chain; `http.Error` appends a newline to its message and
`http.NotFound` writes `404 page not found` plus a newline. -/
def HandleMountPoints (s : HealthHandlers) (w : AgentState)
    (urlPath : String) : HTTPResponse :=
  if goHasPre urlPath (s.healthPath ++ "/" ++ s.mountPointsSubpath) = false then
    ⟨404, "404 page not found\n"⟩
  else if goTrimPre urlPath (s.healthPath ++ "/" ++ s.mountPointsSubpath) = "" then
    ⟨400, "mount point path required\n"⟩
  else
    match IsMountHealthy w
      (decodeMountPoint
        (goTrimPre urlPath (s.healthPath ++ "/" ++ s.mountPointsSubpath))) with
    | (_, false) => ⟨404, "404 page not found\n"⟩
    | (true, true) => ⟨200, "ok\n"⟩
    | (false, true) => ⟨503, "unhealthy\n"⟩

/-- Embedding of `HealthHandlers.HandleMain`. -/
def HandleMain (w : AgentState) : HTTPResponse :=
  if IsHealthy w then ⟨200, "ok\n"⟩ else ⟨503, "unhealthy\n"⟩

/-- The loop of `Watchdog.Start` after the initial check.  Each list
element is one `select` outcome observed by the loop: `none` is
`ctx.Done()` (the loop returns), `some envs` is a ticker tick (one
`CheckAll` pass with environment `envs`, then the loop continues).
Returns the final state and the number of passes the loop ran. -/
def startLoop (w : AgentState) :
    List (Option (String → CheckEnv)) → AgentState × Nat
  | [] => (w, 0)
  | none :: _ => (w, 0)
  | some envs :: rest =>
    let r := startLoop (CheckAll w envs) rest
    (r.1, r.2 + 1)

/-- Embedding of `Watchdog.Start`: one unconditional initial `CheckAll`
pass, then the ticker/cancellation loop.  Returns the final state and the
total number of passes started. -/
def Start (w : AgentState) (initEnvs : String → CheckEnv)
    (events : List (Option (String → CheckEnv))) : AgentState × Nat :=
  let r := startLoop (CheckAll w initEnvs) events
  (r.1, r.2 + 1)

/-- Number of ticker ticks the loop observes strictly before the first
cancellation signal. -/
def ticksBeforeCancel {α : Type} : List (Option α) → Nat
  | [] => 0
  | none :: _ => 0
  | some _ :: rest => ticksBeforeCancel rest + 1

/-- The state-affecting operations the running system performs: scheduler
runs, full passes, single checks, and the two HTTP handlers (which only
read the state). -/
inductive SysOp where
  | sched (initEnvs : String → CheckEnv)
      (events : List (Option (String → CheckEnv)))
  | passAll (envs : String → CheckEnv)
  | passOne (mountPoint : String) (env : CheckEnv)
  | httpMain
  | httpMountPoints (urlPath : String)

/-- State transition of one system operation.  The HTTP handlers are pure
reads of the state, so they leave it unchanged. -/
def applyOp (w : AgentState) : SysOp → AgentState
  | .sched initEnvs events => (Start w initEnvs events).1
  | .passAll envs => CheckAll w envs
  | .passOne mp env => CheckMountPoint w env mp
  | .httpMain => w
  | .httpMountPoints _ => w

/-- States of the health store reachable from construction through the
operations the system performs on it: `NewWatchdog` builds the store, and
the scheduler pipeline mutates it one `CheckAll` pass at a time (the
reads `IsHealthy`, `IsMountHealthy` and the HTTP handlers do not change
state). -/
inductive Reachable (pn pv ns : String) (points : List String) (iv : Nat)
    (b : Bool) : AgentState → Prop where
  | init : Reachable pn pv ns points iv b (NewWatchdog pn pv ns points iv b)
  | pass (w : AgentState) (envs : String → CheckEnv) :
      Reachable pn pv ns points iv b w →
      Reachable pn pv ns points iv b (CheckAll w envs)

/-- Applying a sequence of `setHealthy` writes in order. -/
def applySets (w : AgentState) (ops : List (String × Bool)) : AgentState :=
  ops.foldl (fun acc op => setHealthy acc op.1 op.2) w

/-- The value of the last `Set` in `ops` on key `k`, when any. -/
def lastSetVal : List (String × Bool) → String → Option Bool
  | [], _ => none
  | (k', v) :: rest, k =>
    match lastSetVal rest k with
    | some v' => some v'
    | none => if k' = k then some v else none

/-! ## Shared concrete environments for witnesses and counterexamples -/

/-- A check environment whose stat step fails (the path does not exist). -/
def envStatFail : CheckEnv :=
  { statRes := .error "no such file or directory"
    mounts := { openRes := .ok [], scanErr := none }
    write := ⟨0, .ok (), .ok ()⟩ }

/-- A check environment where the path is a directory but `/proc/mounts`
is readable and holds no entry for the checked mount point. -/
def envNoMatch : CheckEnv :=
  { statRes := .ok ⟨true⟩
    mounts := { openRes := .ok ["/dev/sda1 /other ext4 rw 0 0"], scanErr := none }
    write := ⟨0, .ok (), .ok ()⟩ }

/-- A check environment where `/mnt/a` is a directory mounted as nfs4 and
the write test succeeds after 7 time units. -/
def envOk : CheckEnv :=
  { statRes := .ok ⟨true⟩
    mounts := { openRes := .ok ["srv:/exp /mnt/a nfs4 rw 0 0"], scanErr := none }
    write := ⟨7, .ok (), .ok ()⟩ }

/-! ## Helper lemmas about leading-slash prefixes -/

theorem goHasPre_slash_append (s : String) : goHasPre ("/" ++ s) "/" = true := by
  obtain ⟨l⟩ := s
  show List.isPrefixOf ['/'] ('/' :: l) = true
  simp [List.isPrefixOf]

theorem goHasPre_dslash_append (s : String) :
    goHasPre ("/" ++ s) "//" = goHasPre s "/" := by
  obtain ⟨l⟩ := s
  show List.isPrefixOf ['/', '/'] ('/' :: l) = List.isPrefixOf ['/'] l
  simp [List.isPrefixOf]

/-! ## C1 -/

/-- C1 (amended): the per-mount path decoder strips at most one leading
slash from the suffix and prepends exactly one.  A suffix with no leading
slash decodes to itself with one slash prepended, a suffix with a leading
slash decodes to a slash plus the suffix minus its first character; hence
for any suffix that begins with at most one slash the decoded mount point
has exactly one leading slash, while a suffix with two or more leading
slashes keeps its extra slashes. -/
theorem C1_decode_leading_slash (raw : String) :
    (goHasPre raw "/" = false → decodeMountPoint raw = "/" ++ raw) ∧
    (goHasPre raw "/" = true → decodeMountPoint raw = "/" ++ goDrop raw 1) ∧
    (goHasPre raw "//" = false →
      goHasPre (decodeMountPoint raw) "/" = true ∧
      goHasPre (decodeMountPoint raw) "//" = false) := by
  refine ⟨?_, ?_, ?_⟩
  · intro h
    simp [decodeMountPoint, goTrimPre, h]
  · intro h
    simp only [decodeMountPoint, goTrimPre, h, if_true]
    rfl
  · intro h
    refine ⟨goHasPre_slash_append _, ?_⟩
    rw [decodeMountPoint, goHasPre_dslash_append]
    by_cases hp : goHasPre raw "/" = true
    · obtain ⟨l⟩ := raw
      cases l with
      | nil => simp [goHasPre, List.isPrefixOf] at hp
      | cons c t =>
        have hc : c = '/' := by
          have hp' : List.isPrefixOf ['/'] (c :: t) = true := hp
          simp [List.isPrefixOf] at hp'
          exact hp'.symm
        subst hc
        have h' : List.isPrefixOf ['/', '/'] ('/' :: t) = false := h
        simp only [List.isPrefixOf, Bool.and_eq_false_iff] at h'
        have ht : List.isPrefixOf ['/'] t = false := by
          rcases h' with h' | h'
          · simp at h'
          · exact h'
        simp only [goTrimPre, hp, if_true]
        show List.isPrefixOf ['/'] (List.drop ("/".length) ('/' :: t)) = false
        simpa using ht
    · have hp' : goHasPre raw "/" = false := by
        simpa using hp
      simp [goTrimPre, hp']

/-- Witness for C1 at concrete suffixes with zero and one leading slash. -/
theorem C1_decode_leading_slash_witness :
    goHasPre "a/b" "/" = false ∧ decodeMountPoint "a/b" = "/" ++ "a/b" ∧
    goHasPre "/a/b" "/" = true ∧ decodeMountPoint "/a/b" = "/" ++ goDrop "/a/b" 1 :=
  ⟨by decide, (C1_decode_leading_slash "a/b").1 (by decide), by decide,
    (C1_decode_leading_slash "/a/b").2.1 (by decide)⟩

/-- C1 counterexample: the suffix `//a/b` decodes to `//a/b`, not to
`/a/b` as the claim states, so a request for it misses a configured,
healthy mount point `/a/b` and is answered 404 instead of 200. -/
theorem C1_counterexample :
    decodeMountPoint "//a/b" = "//a/b" ∧
    (decodeMountPoint "//a/b" = "/a/b") = False ∧
    HandleMountPoints (NewHealthHandler "/health" "mount-points/")
      (setHealthy (NewWatchdog "p" "v" "ns" ["/a/b"] 30 false) "/a/b" true)
      "/health/mount-points///a/b" = ⟨404, "404 page not found\n"⟩ :=
  ⟨by decide, eq_false (by decide), by decide⟩

/-! ## C3 -/

theorem startLoop_count (events : List (Option (String → CheckEnv))) :
    ∀ w : AgentState, (startLoop w events).2 = ticksBeforeCancel events := by
  induction events with
  | nil => intro w; rfl
  | cons e rest ih =>
    intro w
    cases e with
    | none => rfl
    | some envs => simp [startLoop, ticksBeforeCancel, ih]

/-- C3 (amended): the scheduler loop always performs exactly one
unconditional initial pass before it first observes the cancellation
signal; afterwards it runs one pass per tick observed strictly before
cancellation and none after, so the total number of passes is
`1 + ticksBeforeCancel events`.  In particular, when cancellation is
already signaled at loop start, exactly the initial pass runs — not
zero. -/
theorem C3_passes_count (w : AgentState) (initEnvs : String → CheckEnv)
    (events : List (Option (String → CheckEnv))) :
    (Start w initEnvs events).2 = 1 + ticksBeforeCancel events := by
  simp [Start, startLoop_count, Nat.add_comm]

/-- C3 counterexample: with the cancellation signal already pending at the
first `select` (the loop observes it before any tick), one full pass still
runs — the unconditional initial `CheckAll` — contradicting the claim that
no pass runs at all. -/
theorem C3_counterexample :
    ((Start (NewWatchdog "p" "v" "ns" ["/mnt/a"] 30 false) (fun _ => envStatFail)
        [none]).2 = 0) = False ∧
    (Start (NewWatchdog "p" "v" "ns" ["/mnt/a"] 30 false) (fun _ => envStatFail)
        [none]).2 = 1 :=
  ⟨eq_false (by decide), by decide⟩

/-! ## Helper lemmas about the health store -/

theorem keys_init_mem (pts : List String) :
    ∀ (m : List (String × Bool)) (x : String),
    x ∈ alKeys (pts.foldl (fun m mp => alSet m mp false) m) ↔
      x ∈ alKeys m ∨ x ∈ pts := by
  induction pts with
  | nil => intro m x; simp
  | cons p rest ih =>
    intro m x
    simp only [List.foldl_cons]
    rw [ih (alSet m p false) x, mem_alKeys_alSet]
    simp only [List.mem_cons]
    tauto

theorem alGet_initFold_not_mem (pts : List String) :
    ∀ (m : List (String × Bool)) (k : String), k ∉ pts →
    alGet (pts.foldl (fun m mp => alSet m mp false) m) k = alGet m k := by
  induction pts with
  | nil => intro m k h; rfl
  | cons p rest ih =>
    intro m k h
    simp only [List.foldl_cons]
    have hk : k ∉ rest := fun hh => h (by simp [hh])
    have hp : k ≠ p := fun hh => h (by simp [hh])
    rw [ih _ _ hk, alGet_alSet_of_ne _ _ _ _ hp]

theorem alGet_initFold_mem (pts : List String) :
    ∀ (m : List (String × Bool)) (k : String), k ∈ pts →
    alGet (pts.foldl (fun m mp => alSet m mp false) m) k = some false := by
  induction pts with
  | nil => intro m k h; simp at h
  | cons p rest ih =>
    intro m k h
    simp only [List.foldl_cons]
    by_cases hr : k ∈ rest
    · exact ih _ _ hr
    · have hp : k = p := by
        rcases List.mem_cons.mp h with h | h
        · exact h
        · exact absurd h hr
      subst hp
      rw [alGet_initFold_not_mem rest _ _ hr, alGet_alSet_self]

theorem CheckMountPoint_mountPoints (w : AgentState) (env : CheckEnv)
    (mp : String) : (CheckMountPoint w env mp).mountPoints = w.mountPoints := by
  unfold CheckMountPoint
  split <;> rfl

theorem CheckMountPoint_keys (w : AgentState) (env : CheckEnv) (mp : String)
    (h : mp ∈ alKeys w.lastHealthy) :
    alKeys (CheckMountPoint w env mp).lastHealthy = alKeys w.lastHealthy := by
  unfold CheckMountPoint
  split <;> exact alKeys_alSet_of_mem _ _ _ h

theorem foldCheck_inv (l : List String) :
    ∀ (w : AgentState) (envs : String → CheckEnv),
    (∀ mp, mp ∈ l → mp ∈ alKeys w.lastHealthy) →
    (l.foldl (fun acc mp => CheckMountPoint acc (envs mp) mp) w).mountPoints
        = w.mountPoints ∧
    alKeys (l.foldl (fun acc mp => CheckMountPoint acc (envs mp) mp) w).lastHealthy
        = alKeys w.lastHealthy := by
  induction l with
  | nil => intro w envs h; exact ⟨rfl, rfl⟩
  | cons p rest ih =>
    intro w envs h
    have hp : p ∈ alKeys w.lastHealthy := h p (by simp)
    have h1 := CheckMountPoint_keys w (envs p) p hp
    have h2 := CheckMountPoint_mountPoints w (envs p) p
    have hrest : ∀ mp, mp ∈ rest →
        mp ∈ alKeys (CheckMountPoint w (envs p) p).lastHealthy := by
      intro mp hm
      rw [h1]
      exact h mp (by simp [hm])
    obtain ⟨ha, hb⟩ := ih (CheckMountPoint w (envs p) p) envs hrest
    constructor
    · simpa [List.foldl_cons, h2] using ha
    · simpa [List.foldl_cons, h1] using hb

/-! ## C4 -/

/-- C4: in every state of the health store reachable from construction via
the operations the system performs (`NewWatchdog`, then `CheckAll` passes,
with `IsHealthy`, `IsMountHealthy` and the HTTP handlers being pure
reads), the list of configured mount points is unchanged, the key set of
`lastHealthy` equals the configured mount-point list, and the key list
itself is exactly the one built at construction: no operation ever adds
or removes a key. -/
theorem C4_keys_fixed (pn pv ns : String) (pts : List String) (iv : Nat)
    (b : Bool) (w : AgentState) (h : Reachable pn pv ns pts iv b w) :
    w.mountPoints = pts ∧
    (∀ x, x ∈ alKeys w.lastHealthy ↔ x ∈ pts) ∧
    alKeys w.lastHealthy = alKeys (NewWatchdog pn pv ns pts iv b).lastHealthy := by
  induction h with
  | init =>
    refine ⟨rfl, ?_, rfl⟩
    intro x
    have hx := keys_init_mem pts [] x
    simpa [NewWatchdog, alKeys] using hx
  | pass w envs hw ih =>
    obtain ⟨h1, h2, h3⟩ := ih
    have hmem : ∀ mp, mp ∈ w.mountPoints → mp ∈ alKeys w.lastHealthy := by
      intro mp hm
      exact (h2 mp).mpr (h1 ▸ hm)
    obtain ⟨ha, hb⟩ := foldCheck_inv w.mountPoints w envs hmem
    refine ⟨?_, ?_, ?_⟩
    · rw [CheckAll, ha, h1]
    · intro x
      rw [CheckAll, hb]
      exact h2 x
    · rw [CheckAll, hb, h3]

/-- Witness for C4 at a state reached by one concrete full check pass. -/
theorem C4_keys_fixed_witness :
    ("/mnt/a" ∈ alKeys
        (CheckAll (NewWatchdog "p" "v" "ns" ["/mnt/a"] 30 false)
          fun _ => envOk).lastHealthy
      ↔ "/mnt/a" ∈ ["/mnt/a"]) ∧
    alKeys (CheckAll (NewWatchdog "p" "v" "ns" ["/mnt/a"] 30 false)
        fun _ => envOk).lastHealthy
      = alKeys (NewWatchdog "p" "v" "ns" ["/mnt/a"] 30 false).lastHealthy :=
  ⟨(C4_keys_fixed _ _ _ _ _ _ _
      (Reachable.pass _ _ Reachable.init)).2.1 "/mnt/a",
    (C4_keys_fixed _ _ _ _ _ _ _
      (Reachable.pass _ _ Reachable.init)).2.2⟩

/-! ## C5 -/

theorem applySets_mountPoints (ops : List (String × Bool)) :
    ∀ w : AgentState, (applySets w ops).mountPoints = w.mountPoints := by
  induction ops with
  | nil => intro w; rfl
  | cons op rest ih =>
    intro w
    simp only [applySets, List.foldl_cons] at *
    rw [ih (setHealthy w op.1 op.2)]
    rfl

theorem alGet_applySets (ops : List (String × Bool)) :
    ∀ (w : AgentState) (k : String),
    alGet (applySets w ops).lastHealthy k
      = (lastSetVal ops k).elim (alGet w.lastHealthy k) some := by
  induction ops with
  | nil => intro w k; rfl
  | cons op rest ih =>
    intro w k
    obtain ⟨k', v⟩ := op
    simp only [applySets, List.foldl_cons] at *
    rw [ih (setHealthy w k' v) k]
    cases hrest : lastSetVal rest k with
    | some v' => simp [lastSetVal, hrest]
    | none =>
      by_cases hk : k' = k
      · subst hk
        simp [lastSetVal, hrest, setHealthy, alGet_alSet_self]
      · simp [lastSetVal, hrest, setHealthy, hk,
          alGet_alSet_of_ne w.lastHealthy k' k v (Ne.symm hk)]

theorem all_congr_on {α : Type} (l : List α) (f g : α → Bool)
    (h : ∀ x ∈ l, f x = g x) : l.all f = l.all g := by
  induction l with
  | nil => rfl
  | cons a as ih =>
    simp only [List.all_cons, h a (by simp)]
    rw [ih fun x hx => h x (by simp [hx])]

theorem all_false_of_mem {α : Type} (l : List α) (f : α → Bool) (x : α)
    (hx : x ∈ l) (hfx : f x = false) : l.all f = false := by
  cases hall : l.all f with
  | false => rfl
  | true =>
    have htrue := List.all_eq_true.mp hall x hx
    simp [hfx] at htrue

/-- C5: the aggregate health of a store built by construction plus any
sequence of `Set` writes is true exactly when every configured mount
point's effective last `Set` value is true (a point never written keeps
its initial `false`); setting any configured point false forces the
aggregate false; setting a point true yields aggregate true when every
other configured point currently reads true; and with zero configured
mount points the aggregate is vacuously true. -/
theorem C5_aggregate_iff (pn pv ns : String) (pts : List String) (iv : Nat)
    (b : Bool) (ops : List (String × Bool)) :
    IsHealthy (applySets (NewWatchdog pn pv ns pts iv b) ops)
      = pts.all (fun mp => (lastSetVal ops mp).getD false) ∧
    (∀ mp, mp ∈ pts →
      IsHealthy
        (setHealthy (applySets (NewWatchdog pn pv ns pts iv b) ops) mp false)
        = false) ∧
    (∀ mp, mp ∈ pts →
      (∀ mp', mp' ∈ pts → mp' ≠ mp →
        alGet (applySets (NewWatchdog pn pv ns pts iv b) ops).lastHealthy mp'
          = some true) →
      IsHealthy
        (setHealthy (applySets (NewWatchdog pn pv ns pts iv b) ops) mp true)
        = true) ∧
    (pts = [] →
      IsHealthy (applySets (NewWatchdog pn pv ns pts iv b) ops) = true) := by
  have hmp : (applySets (NewWatchdog pn pv ns pts iv b) ops).mountPoints = pts := by
    rw [applySets_mountPoints]
    rfl
  have hget : ∀ k, k ∈ pts →
      alGet (applySets (NewWatchdog pn pv ns pts iv b) ops).lastHealthy k
        = (lastSetVal ops k).elim (some false) some := by
    intro k hk
    rw [alGet_applySets]
    have hinit : alGet (NewWatchdog pn pv ns pts iv b).lastHealthy k = some false :=
      alGet_initFold_mem pts [] k hk
    rw [hinit]
  refine ⟨?_, ?_, ?_, ?_⟩
  · unfold IsHealthy
    rw [hmp]
    refine all_congr_on pts _ _ ?_
    intro x hx
    rw [hget x hx]
    cases lastSetVal ops x <;> rfl
  · intro mp hmpts
    unfold IsHealthy
    rw [show (setHealthy (applySets (NewWatchdog pn pv ns pts iv b) ops) mp
        false).mountPoints = pts from hmp]
    refine all_false_of_mem pts _ mp hmpts ?_
    simp [setHealthy, alGet_alSet_self]
  · intro mp hmpts hothers
    unfold IsHealthy
    rw [show (setHealthy (applySets (NewWatchdog pn pv ns pts iv b) ops) mp
        true).mountPoints = pts from hmp]
    refine List.all_eq_true.mpr ?_
    intro x hx
    by_cases hxmp : x = mp
    · subst hxmp
      simp [setHealthy, alGet_alSet_self]
    · have := hothers x hx hxmp
      simp [setHealthy, alGet_alSet_of_ne _ _ _ _ hxmp, this]
  · intro hnil
    unfold IsHealthy
    rw [hmp, hnil]
    rfl

/-- Witness for C5 with two mount points both last set true, then one
flipped false, then flipped back. -/
theorem C5_aggregate_iff_witness :
    IsHealthy (applySets (NewWatchdog "p" "v" "ns" ["/mnt/a", "/mnt/b"] 30 false)
        [("/mnt/a", true), ("/mnt/b", true)])
      = (["/mnt/a", "/mnt/b"].all fun mp =>
          (lastSetVal [("/mnt/a", true), ("/mnt/b", true)] mp).getD false) ∧
    IsHealthy (setHealthy
        (applySets (NewWatchdog "p" "v" "ns" ["/mnt/a", "/mnt/b"] 30 false)
          [("/mnt/a", true), ("/mnt/b", true)]) "/mnt/b" false) = false ∧
    IsHealthy (setHealthy
        (applySets (NewWatchdog "p" "v" "ns" ["/mnt/a", "/mnt/b"] 30 false)
          [("/mnt/a", true), ("/mnt/b", true)]) "/mnt/b" true) = true :=
  ⟨(C5_aggregate_iff "p" "v" "ns" ["/mnt/a", "/mnt/b"] 30 false
      [("/mnt/a", true), ("/mnt/b", true)]).1,
    (C5_aggregate_iff "p" "v" "ns" ["/mnt/a", "/mnt/b"] 30 false
      [("/mnt/a", true), ("/mnt/b", true)]).2.1 "/mnt/b" (by decide),
    (C5_aggregate_iff "p" "v" "ns" ["/mnt/a", "/mnt/b"] 30 false
      [("/mnt/a", true), ("/mnt/b", true)]).2.2.1 "/mnt/b" (by decide)
      (by decide)⟩

/-! ## C2 -/

/-- C2 (code evaluation): on a path that exists and is a directory, with a
readable mount table containing no matching entry, `checkMounted` fails
through the table-read wrapper branch with the inner error
`mount-point not found in /proc/mounts`; the dedicated `notAnNFSMount`
branch is unreachable, because `isOnNFS` never returns `ok false`: every
invocation yields `ok true` or an error. -/
theorem C2_not_nfs_kind_unreachable :
    (checkMounted false none envNoMatch "/mnt/a").1
      = .error (.procMountsCheckFailed "mount-point not found in /proc/mounts") ∧
    (∀ (env : MountsEnv) (mp : String),
      isOnNFS env mp = .ok true ∨ ∃ e, isOnNFS env mp = .error e) := by
  refine ⟨by decide, ?_⟩
  intro env mp
  unfold isOnNFS
  cases env.openRes with
  | error e => exact Or.inr ⟨e, rfl⟩
  | ok lines =>
    by_cases h : lines.any (isNFSLine mp) = true
    · simp [h]
    · simp only [Bool.not_eq_true] at h
      simp only [h, Bool.false_eq_true, if_false]
      cases env.scanErr with
      | some e => exact Or.inr ⟨e, rfl⟩
      | none => exact Or.inr ⟨_, rfl⟩

/-! ## C6 -/

/-- C6: for every request to the per-mount endpoint whose path carries the
correct prefix: an empty suffix is answered 400 with the explanatory
body, a suffix decoding to a mount point absent from the health store is
answered 404, and a suffix decoding to a present mount point is answered
200 `ok` when its record is healthy and 503 `unhealthy` otherwise. -/
theorem C6_per_mount_responses (hh : HealthHandlers) (w : AgentState)
    (urlPath : String)
    (hpre : goHasPre urlPath (hh.healthPath ++ "/" ++ hh.mountPointsSubpath)
      = true) :
    (goTrimPre urlPath (hh.healthPath ++ "/" ++ hh.mountPointsSubpath) = "" →
      HandleMountPoints hh w urlPath = ⟨400, "mount point path required\n"⟩) ∧
    (goTrimPre urlPath (hh.healthPath ++ "/" ++ hh.mountPointsSubpath) ≠ "" →
      alGet w.lastHealthy (decodeMountPoint (goTrimPre urlPath
        (hh.healthPath ++ "/" ++ hh.mountPointsSubpath))) = none →
      HandleMountPoints hh w urlPath = ⟨404, "404 page not found\n"⟩) ∧
    (goTrimPre urlPath (hh.healthPath ++ "/" ++ hh.mountPointsSubpath) ≠ "" →
      alGet w.lastHealthy (decodeMountPoint (goTrimPre urlPath
        (hh.healthPath ++ "/" ++ hh.mountPointsSubpath))) = some true →
      HandleMountPoints hh w urlPath = ⟨200, "ok\n"⟩) ∧
    (goTrimPre urlPath (hh.healthPath ++ "/" ++ hh.mountPointsSubpath) ≠ "" →
      alGet w.lastHealthy (decodeMountPoint (goTrimPre urlPath
        (hh.healthPath ++ "/" ++ hh.mountPointsSubpath))) = some false →
      HandleMountPoints hh w urlPath = ⟨503, "unhealthy\n"⟩) := by
  refine ⟨?_, ?_, ?_, ?_⟩
  · intro hraw
    simp [HandleMountPoints, hpre, hraw]
  · intro hraw hget
    simp [HandleMountPoints, hpre, hraw, IsMountHealthy, hget]
  · intro hraw hget
    simp [HandleMountPoints, hpre, hraw, IsMountHealthy, hget]
  · intro hraw hget
    simp [HandleMountPoints, hpre, hraw, IsMountHealthy, hget]

/-- Witness for C6 covering the 400, 404, 200 and 503 responses at
concrete requests. -/
theorem C6_per_mount_responses_witness :
    HandleMountPoints (NewHealthHandler "/health" "mount-points/")
      (setHealthy (NewWatchdog "p" "v" "ns" ["/mnt/a", "/mnt/b"] 30 false)
        "/mnt/a" true)
      "/health/mount-points/" = ⟨400, "mount point path required\n"⟩ ∧
    HandleMountPoints (NewHealthHandler "/health" "mount-points/")
      (setHealthy (NewWatchdog "p" "v" "ns" ["/mnt/a", "/mnt/b"] 30 false)
        "/mnt/a" true)
      "/health/mount-points/unknown" = ⟨404, "404 page not found\n"⟩ ∧
    HandleMountPoints (NewHealthHandler "/health" "mount-points/")
      (setHealthy (NewWatchdog "p" "v" "ns" ["/mnt/a", "/mnt/b"] 30 false)
        "/mnt/a" true)
      "/health/mount-points/mnt/a" = ⟨200, "ok\n"⟩ ∧
    HandleMountPoints (NewHealthHandler "/health" "mount-points/")
      (setHealthy (NewWatchdog "p" "v" "ns" ["/mnt/a", "/mnt/b"] 30 false)
        "/mnt/a" true)
      "/health/mount-points/mnt/b" = ⟨503, "unhealthy\n"⟩ :=
  ⟨(C6_per_mount_responses _ _ _ (by decide)).1 (by decide),
    (C6_per_mount_responses _ _ _ (by decide)).2.1 (by decide) (by decide),
    (C6_per_mount_responses _ _ _ (by decide)).2.2.1 (by decide) (by decide),
    (C6_per_mount_responses _ _ _ (by decide)).2.2.2 (by decide) (by decide)⟩

/-! ## C7 -/

/-- C7: immediately after construction with at least one configured mount
point and before any check runs, every configured mount point's record
exists and is unhealthy — the per-mount read returns `(false, true)` and
the per-mount endpoint answers 503 — and the aggregate read is false, so
the main endpoint answers 503. -/
theorem C7_initial_unhealthy (pn pv ns : String) (pts : List String)
    (iv : Nat) (b : Bool) (hne : pts ≠ []) (mp : String) (hmp : mp ∈ pts) :
    IsMountHealthy (NewWatchdog pn pv ns pts iv b) mp = (false, true) ∧
    IsHealthy (NewWatchdog pn pv ns pts iv b) = false ∧
    HandleMain (NewWatchdog pn pv ns pts iv b) = ⟨503, "unhealthy\n"⟩ ∧
    (∀ (hh : HealthHandlers) (urlPath : String),
      goHasPre urlPath (hh.healthPath ++ "/" ++ hh.mountPointsSubpath) = true →
      goTrimPre urlPath (hh.healthPath ++ "/" ++ hh.mountPointsSubpath) ≠ "" →
      decodeMountPoint (goTrimPre urlPath
        (hh.healthPath ++ "/" ++ hh.mountPointsSubpath)) = mp →
      HandleMountPoints hh (NewWatchdog pn pv ns pts iv b) urlPath
        = ⟨503, "unhealthy\n"⟩) := by
  have hget : alGet (NewWatchdog pn pv ns pts iv b).lastHealthy mp = some false :=
    alGet_initFold_mem pts [] mp hmp
  have hagg : IsHealthy (NewWatchdog pn pv ns pts iv b) = false := by
    unfold IsHealthy
    refine all_false_of_mem pts _ mp hmp ?_
    rw [hget]
    rfl
  refine ⟨?_, hagg, ?_, ?_⟩
  · unfold IsMountHealthy
    rw [hget]
  · unfold HandleMain
    rw [hagg]
    rfl
  · intro hh urlPath hpre hraw hdec
    simp [HandleMountPoints, hpre, hraw, hdec, IsMountHealthy, hget]

/-- Witness for C7 with a single configured mount point queried right
after construction. -/
theorem C7_initial_unhealthy_witness :
    IsMountHealthy (NewWatchdog "p" "v" "ns" ["/mnt/a"] 30 false) "/mnt/a"
      = (false, true) ∧
    IsHealthy (NewWatchdog "p" "v" "ns" ["/mnt/a"] 30 false) = false ∧
    HandleMain (NewWatchdog "p" "v" "ns" ["/mnt/a"] 30 false)
      = ⟨503, "unhealthy\n"⟩ ∧
    HandleMountPoints (NewHealthHandler "/health" "mount-points/")
      (NewWatchdog "p" "v" "ns" ["/mnt/a"] 30 false)
      "/health/mount-points/mnt/a" = ⟨503, "unhealthy\n"⟩ :=
  have h := C7_initial_unhealthy "p" "v" "ns" ["/mnt/a"] 30 false (by decide)
    "/mnt/a" (by decide)
  ⟨h.1, h.2.1, h.2.2.1,
    h.2.2.2 (NewHealthHandler "/health" "mount-points/")
      "/health/mount-points/mnt/a" (by decide) (by decide) (by decide)⟩

/-! ## C8 -/

/-- C8: when the stat step fails or reports a non-directory, the check
returns the corresponding failure with only the stat step performed —
neither the mount-table lookup nor the write test runs; and in general
the performed steps are always an in-order prefix of
stat, mount-table read, write test. -/
theorem C8_short_circuit (b : Bool) (hist : Option (List (String × List Nat)))
    (env : CheckEnv) (mp : String) :
    (∀ e, env.statRes = .error e →
      checkMounted b hist env mp
        = (.error (.statFailed mp e), hist, [.statStep])) ∧
    (∀ info, env.statRes = .ok info → info.isDir = false →
      checkMounted b hist env mp
        = (.error (.notADirectory mp), hist, [.statStep])) ∧
    ((checkMounted b hist env mp).2.2 = [.statStep] ∨
      (checkMounted b hist env mp).2.2 = [.statStep, .readMountsStep] ∨
      (checkMounted b hist env mp).2.2
        = [.statStep, .readMountsStep, .writeStep]) := by
  refine ⟨?_, ?_, ?_⟩
  · intro e he
    unfold checkMounted
    rw [he]
  · intro info hi hd
    unfold checkMounted
    rw [hi]
    simp [hd]
  · unfold checkMounted
    rcases env.statRes with e | info
    · simp
    · by_cases hd : info.isDir = false
      · simp [hd]
      · simp only [hd, if_false]
        rcases isOnNFS env.mounts mp with e | isn
        · simp
        · by_cases hn : isn = false
          · simp [hn]
          · simp only [hn, if_false]
            cases b with
            | false => simp
            | true =>
              simp only [if_true]
              rcases writeTest hist env.write mp with ⟨r, h2⟩
              cases r <;> simp

/-- Witness for C8 at a concrete environment whose stat step fails. -/
theorem C8_short_circuit_witness :
    checkMounted false none envStatFail "/mnt/a"
      = (.error (.statFailed "/mnt/a" "no such file or directory"), none,
          [.statStep]) :=
  (C8_short_circuit false none envStatFail "/mnt/a").1
    "no such file or directory" (by decide)

/-! ## C9 -/

theorem writeTest_some_hist (hist : List (String × List Nat))
    (wenv : WriteEnv) (mp : String) :
    (writeTest (some hist) wenv mp).2
      = some (alSet hist mp ((alGet hist mp).getD [] ++ [wenv.duration])) := by
  cases h1 : wenv.createRes <;> cases h2 : wenv.removeRes <;>
    simp [writeTest, h1, h2]

theorem histCount_alSet_append (hist : List (String × List Nat))
    (mp : String) (d : Nat) :
    histCount (alSet hist mp ((alGet hist mp).getD [] ++ [d])) mp
      = histCount hist mp + 1 := by
  unfold histCount
  rw [alGet_alSet_self]
  simp

/-- C9: the write-test duration histogram exists exactly when the
write-test flag is enabled at construction (`none` — never created — when
disabled), and every write-test invocation appends exactly one duration
sample for the mount point's label, on success and on failure of either
the create or the delete step alike; consequently a full check that
reaches the write test grows the histogram by exactly one sample. -/
theorem C9_write_test_histogram (pn pv ns : String) (pts : List String)
    (iv : Nat) (hist : List (String × List Nat)) (wenv : WriteEnv)
    (mp : String) :
    (NewWatchdog pn pv ns pts iv true).nfsWriteTestDuration = some [] ∧
    (NewWatchdog pn pv ns pts iv false).nfsWriteTestDuration = none ∧
    (writeTest (some hist) wenv mp).2
      = some (alSet hist mp ((alGet hist mp).getD [] ++ [wenv.duration])) ∧
    histCount (alSet hist mp ((alGet hist mp).getD [] ++ [wenv.duration])) mp
      = histCount hist mp + 1 ∧
    (∀ (cenv : CheckEnv) (info : StatInfo),
      cenv.statRes = .ok info → info.isDir = true →
      isOnNFS cenv.mounts mp = .ok true →
      histCountO (checkMounted true (some hist) cenv mp).2.1 mp
        = histCount hist mp + 1) := by
  refine ⟨rfl, rfl, writeTest_some_hist hist wenv mp,
    histCount_alSet_append hist mp wenv.duration, ?_⟩
  intro cenv info h1 h2 h3
  unfold checkMounted
  rw [h1, h3]
  simp only [h2, if_true, if_false]
  have hwt := writeTest_some_hist hist cenv.write mp
  rcases hwres : writeTest (some hist) cenv.write mp with ⟨r, hco⟩
  rw [hwres] at hwt
  simp only at hwt
  cases r <;>
    simp [hwt, histCountO, histCount_alSet_append hist mp cenv.write.duration]

/-- Witness for C9: a concrete successful check with the write test
enabled records exactly one sample. -/
theorem C9_write_test_histogram_witness :
    histCountO (checkMounted true (some []) envOk "/mnt/a").2.1 "/mnt/a"
      = histCount [] "/mnt/a" + 1 :=
  (C9_write_test_histogram "p" "v" "ns" ["/mnt/a"] 30 [] envOk.write
      "/mnt/a").2.2.2.2 envOk ⟨true⟩ (by decide) (by decide) (by decide)

/-! ## C10 -/

theorem CheckMountPoint_remounts (w : AgentState) (env : CheckEnv)
    (mp : String) :
    (CheckMountPoint w env mp).nfsRemountsTotal = w.nfsRemountsTotal := by
  unfold CheckMountPoint
  split <;> rfl

theorem foldCheck_remounts (l : List String) :
    ∀ (w : AgentState) (envs : String → CheckEnv),
    (l.foldl (fun acc mp => CheckMountPoint acc (envs mp) mp) w).nfsRemountsTotal
      = w.nfsRemountsTotal := by
  induction l with
  | nil => intro w envs; rfl
  | cons p rest ih =>
    intro w envs
    simp only [List.foldl_cons]
    rw [ih, CheckMountPoint_remounts]

theorem CheckAll_remounts (w : AgentState) (envs : String → CheckEnv) :
    (CheckAll w envs).nfsRemountsTotal = w.nfsRemountsTotal :=
  foldCheck_remounts w.mountPoints w envs

theorem startLoop_remounts (events : List (Option (String → CheckEnv))) :
    ∀ w : AgentState,
    (startLoop w events).1.nfsRemountsTotal = w.nfsRemountsTotal := by
  induction events with
  | nil => intro w; rfl
  | cons e rest ih =>
    intro w
    cases e with
    | none => rfl
    | some envs => simp [startLoop, ih, CheckAll_remounts]

theorem applyOp_remounts (w : AgentState) (op : SysOp) :
    (applyOp w op).nfsRemountsTotal = w.nfsRemountsTotal := by
  cases op with
  | sched i e => simp [applyOp, Start, startLoop_remounts, CheckAll_remounts]
  | passAll envs => exact CheckAll_remounts w envs
  | passOne mp env => exact CheckMountPoint_remounts w env mp
  | httpMain => rfl
  | httpMountPoints _ => rfl

/-- C10: the remounts-total counter vector is created at construction and
no operation of the system — scheduler runs, full passes, single checks,
HTTP requests — ever touches it: after any operation sequence it still
holds no series and reads zero for every label combination, consistent
with the system never attempting remediation. -/
theorem C10_remounts_never_incremented (pn pv ns : String)
    (pts : List String) (iv : Nat) (b : Bool) (ops : List SysOp) :
    (ops.foldl applyOp (NewWatchdog pn pv ns pts iv b)).nfsRemountsTotal = [] ∧
    (∀ label, counterVal
      (ops.foldl applyOp (NewWatchdog pn pv ns pts iv b)).nfsRemountsTotal label
      = 0) := by
  have hfold : ∀ (l : List SysOp) (w : AgentState),
      (l.foldl applyOp w).nfsRemountsTotal = w.nfsRemountsTotal := by
    intro l
    induction l with
    | nil => intro w; rfl
    | cons o rest ih =>
      intro w
      simp only [List.foldl_cons]
      rw [ih, applyOp_remounts]
  constructor
  · rw [hfold]
    rfl
  · intro label
    rw [hfold]
    rfl

end NfsMounterAgent
